import Mathlib

/-! ldmodel: decoding of flag and segment wire documents

A shallow embedding of `ldmodel/model_unmarshal.go`.

* Go `int` is `Int` (the decoder does no arithmetic on it).
* A Go pointer `*T` used for an optional JSON field is `Option T`; `none` is the nil pointer.
* A Go slice is `Slice α`: either the nil slice or a non-nil slice with its elements.
* Go code that can stop with a run-time panic (an out-of-range indexed write, a nil
  dereference) returns `Option`; `none` is the panic.
* `json.Unmarshal` (package `encoding/json`) and the hooks `PreprocessFlag` /
  `PreprocessSegment` are parameters of the two entry points.
-/

namespace ldmodel

/-! ## Go values -/

/-- A Go slice value: the nil slice, or a non-nil slice holding `elems`. -/
inductive Slice (α : Type) where
  | nil : Slice α
  | mk (elems : List α) : Slice α
deriving DecidableEq

namespace Slice

variable {α : Type}

/-- The elements of a slice; the nil slice has none. -/
def toList : Slice α → List α
  | nil => []
  | mk xs => xs

/-- Go `len(s)`; `len(nil)` is 0. -/
def len (s : Slice α) : Nat := s.toList.length

/-- Go `s == nil`. -/
def isNil : Slice α → Bool
  | nil => true
  | mk _ => false

/-- Go `make([]T, n)`: a non-nil slice of `n` zero values. -/
def make (zero : α) (n : Nat) : Slice α := mk (List.replicate n zero)

/-- Go `s[i] = v`: panics (`none`) when `i` is not below `len(s)`. -/
def assign (s : Slice α) (i : Nat) (v : α) : Option (Slice α) :=
  match s with
  | nil => none
  | mk xs => if i < xs.length then some (mk (xs.set i v)) else none

end Slice

/-- Go `*p`: panics (`none`) on the nil pointer. -/
def deref {α : Type} : Option α → Option α
  | some v => some v
  | none => none

/-- Go `for i, x := range xs { st = body i x st }`, the index starting at `i`;
a panic in the body ends the loop with that panic. -/
def forRange {α σ : Type} (body : Nat → α → σ → Option σ) : List α → Nat → σ → Option σ
  | [], _, st => some st
  | x :: xs, i, st => (body i x st).bind (fun st1 => forRange body xs (i + 1) st1)

/-! ## Types declared outside this file -/

/-- The type `lduser.UserAttribute` of go-sdk-common, declared there as a string type. -/
abbrev UserAttribute := String

/-- The constant `lduser.KeyAttribute` of go-sdk-common: the canonical "key" attribute. -/
def KeyAttribute : UserAttribute := "key"

/-- The type `Operator` of the package, a string-valued enumeration read from `op`. -/
abbrev Operator := String

/-- The type `ldtime.UnixMillisecondTime` of go-sdk-common: unsigned milliseconds since epoch. -/
abbrev UnixMillisecondTime := Nat

/-- Modelled from the spec: the constant `NoVariation`, declared in the package outside
`model_unmarshal.go`; the spec gives it as the reserved value -1. -/
def NoVariation : Int := -1

/-! ## Wire model (the `JSONRep` types)

`V` stands for `ldvalue.Value`, the generic JSON value type of go-sdk-common, which the
decoder only copies. -/

structure prerequisiteJSONRep where
  Key : String
  Variation : Int
deriving DecidableEq

structure targetJSONRep where
  Values : Slice String
  Variation : Int
deriving DecidableEq

structure clauseJSONRep (V : Type) where
  Attribute : UserAttribute
  Op : Operator
  Values : Slice V
  Negate : Bool
deriving DecidableEq

structure weightedVariationJSONRep where
  Variation : Int
  Weight : Int
deriving DecidableEq

structure rolloutJSONRep where
  Variations : Slice weightedVariationJSONRep
  BucketBy : UserAttribute
deriving DecidableEq

structure variationOrRolloutJSONRep where
  Variation : Option Int
  Rollout : Option rolloutJSONRep
deriving DecidableEq

structure flagRuleJSONRep (V : Type) where
  variationOrRolloutJSONRep : variationOrRolloutJSONRep
  ID : String
  Clauses : Slice (clauseJSONRep V)
  TrackEvents : Bool
deriving DecidableEq

structure featureFlagJSONRep (V : Type) where
  Key : String
  On : Bool
  Prerequisites : Slice prerequisiteJSONRep
  Targets : Slice targetJSONRep
  Rules : Slice (flagRuleJSONRep V)
  Fallthrough : variationOrRolloutJSONRep
  OffVariation : Option Int
  Variations : Slice V
  ClientSide : Bool
  Salt : String
  TrackEvents : Bool
  TrackEventsFallthrough : Bool
  DebugEventsUntilDate : UnixMillisecondTime
  Version : Int
  Deleted : Bool
deriving DecidableEq

structure segmentRuleJSONRep (V : Type) where
  ID : String
  Clauses : Slice (clauseJSONRep V)
  Weight : Option Int
  BucketBy : Option UserAttribute
deriving DecidableEq

structure segmentJSONRep (V : Type) where
  Key : String
  Included : Slice String
  Excluded : Slice String
  Salt : String
  Rules : Slice (segmentRuleJSONRep V)
  Version : Int
  Deleted : Bool
deriving DecidableEq

/-! ## Domain model

The domain types are declared in the package outside `model_unmarshal.go`. Each is given
here with the fields the decoder assigns, typed as the assignments require. -/

/-- Modelled from the spec: the type `Prerequisite`, declared outside this file; the
conversion `Prerequisite(p)` fixes its fields as those of `prerequisiteJSONRep`. -/
structure Prerequisite where
  Key : String
  Variation : Int
deriving DecidableEq

/-- Modelled from the spec: the type `Target`, declared outside this file. -/
structure Target where
  Values : Slice String
  Variation : Int
deriving DecidableEq

/-- Modelled from the spec: the type `Clause`, declared outside this file. -/
structure Clause (V : Type) where
  Attribute : UserAttribute
  Op : Operator
  Values : Slice V
  Negate : Bool
deriving DecidableEq

/-- Modelled from the spec: the type `WeightedVariation`, declared outside this file; the
conversion `WeightedVariation(wv)` fixes its fields as those of the wire type. -/
structure WeightedVariation where
  Variation : Int
  Weight : Int
deriving DecidableEq

/-- Modelled from the spec: the type `Rollout`, declared outside this file. -/
structure Rollout where
  Variations : Slice WeightedVariation
  BucketBy : UserAttribute
deriving DecidableEq

/-- Modelled from the spec: the type `VariationOrRollout`, declared outside this file. -/
structure VariationOrRollout where
  Variation : Int
  Rollout : Rollout
deriving DecidableEq

/-- Modelled from the spec: the type `FlagRule`, declared outside this file. -/
structure FlagRule (V : Type) where
  VariationOrRollout : VariationOrRollout
  ID : String
  Clauses : Slice (Clause V)
  TrackEvents : Bool
deriving DecidableEq

/-- Modelled from the spec: the type `FeatureFlag`, declared outside this file. -/
structure FeatureFlag (V : Type) where
  Key : String
  On : Bool
  Prerequisites : Slice Prerequisite
  Targets : Slice Target
  Rules : Slice (FlagRule V)
  Fallthrough : VariationOrRollout
  OffVariation : Int
  Variations : Slice V
  ClientSide : Bool
  Salt : String
  TrackEvents : Bool
  TrackEventsFallthrough : Bool
  DebugEventsUntilDate : UnixMillisecondTime
  Version : Int
  Deleted : Bool
deriving DecidableEq

/-- Modelled from the spec: the type `SegmentRule`, declared outside this file. -/
structure SegmentRule (V : Type) where
  ID : String
  Clauses : Slice (Clause V)
  Weight : Int
  BucketBy : UserAttribute
deriving DecidableEq

/-- Modelled from the spec: the type `Segment`, declared outside this file. -/
structure Segment (V : Type) where
  Key : String
  Included : Slice String
  Excluded : Slice String
  Salt : String
  Rules : Slice (SegmentRule V)
  Version : Int
  Deleted : Bool
deriving DecidableEq

/-! ## Zero values -/

/-- Go `Prerequisite{}`. -/
def Prerequisite.zero : Prerequisite := ⟨"", 0⟩

/-- Go `Target{}`. -/
def Target.zero : Target := ⟨Slice.nil, 0⟩

/-- Go `Clause{}`. -/
def Clause.zero {V : Type} : Clause V := ⟨"", "", Slice.nil, false⟩

/-- Go `WeightedVariation{}`. -/
def WeightedVariation.zero : WeightedVariation := ⟨0, 0⟩

/-- Go `Rollout{}`. -/
def Rollout.zero : Rollout := ⟨Slice.nil, ""⟩

/-- Go `VariationOrRollout{}`. -/
def VariationOrRollout.zero : VariationOrRollout := ⟨0, Rollout.zero⟩

/-- Go `FlagRule{}`. -/
def FlagRule.zero {V : Type} : FlagRule V := ⟨VariationOrRollout.zero, "", Slice.nil, false⟩

/-- Go `FeatureFlag{}`. -/
def FeatureFlag.zero {V : Type} : FeatureFlag V :=
  ⟨"", false, Slice.nil, Slice.nil, Slice.nil, VariationOrRollout.zero, 0, Slice.nil,
    false, "", false, false, 0, 0, false⟩

/-- Go `SegmentRule{}`. -/
def SegmentRule.zero {V : Type} : SegmentRule V := ⟨"", Slice.nil, 0, ""⟩

/-- Go `Segment{}`. -/
def Segment.zero {V : Type} : Segment V := ⟨"", Slice.nil, Slice.nil, "", Slice.nil, 0, false⟩

/-! ## The decoder -/

/-- Source `maybeVariation` (lines 203-208). -/
def maybeVariation (value : Option Int) : Option Int :=
  if value.isNone then
    some NoVariation
  else
    deref value

/-- Source `decodeClauses` (lines 190-201). -/
def decodeClauses {V : Type} (clauses : Slice (clauseJSONRep V)) : Option (Slice (Clause V)) :=
  forRange
    (fun i c ret =>
      ret.assign i
        { Attribute := c.Attribute, Op := c.Op, Values := c.Values, Negate := c.Negate })
    clauses.toList 0 (Slice.make Clause.zero clauses.len)

/-- Source `decodeVariationOrRollout` (lines 178-188). -/
def decodeVariationOrRollout (fields : variationOrRolloutJSONRep) : Option VariationOrRollout := do
  let v ← maybeVariation fields.Variation
  let ret : VariationOrRollout := { VariationOrRollout.zero with Variation := v }
  if fields.Rollout.isSome then
    let rollout ← deref fields.Rollout
    let vs ← forRange
      (fun i wv s => s.assign i { Variation := wv.Variation, Weight := wv.Weight })
      rollout.Variations.toList 0
      (Slice.make WeightedVariation.zero rollout.Variations.len)
    pure { ret with Rollout := { Variations := vs, BucketBy := rollout.BucketBy } }
  else
    pure ret

/-- Lines 119-125 of `unmarshalFeatureFlag`: the body of the loop over `fields.Rules`. -/
def flagRuleBody {V : Type} (i : Nat) (r : flagRuleJSONRep V) (rules : Slice (FlagRule V)) :
    Option (Slice (FlagRule V)) := do
  let vr ← decodeVariationOrRollout r.variationOrRolloutJSONRep
  let cs ← decodeClauses r.Clauses
  let fr : FlagRule V :=
    { VariationOrRollout := vr, ID := r.ID, Clauses := cs, TrackEvents := r.TrackEvents }
  rules.assign i fr

/-- Lines 95-135 of `unmarshalFeatureFlag`: the flag built from the parsed wire value,
before the hook runs. -/
def buildFeatureFlag {V : Type} (fields : featureFlagJSONRep V) : Option (FeatureFlag V) := do
  let ret : FeatureFlag V :=
    { (FeatureFlag.zero : FeatureFlag V) with
      Key := fields.Key, Version := fields.Version, Deleted := fields.Deleted, On := fields.On }
  let ret ←
    if fields.Prerequisites.len > 0 then do
      let ps ← forRange
        (fun i p s => s.assign i { Key := p.Key, Variation := p.Variation })
        fields.Prerequisites.toList 0 (Slice.make Prerequisite.zero fields.Prerequisites.len)
      pure { ret with Prerequisites := ps }
    else pure ret
  let ret ←
    if fields.Targets.len > 0 then do
      let ts ← forRange
        (fun i t s => s.assign i { Values := t.Values, Variation := t.Variation })
        fields.Targets.toList 0 (Slice.make Target.zero fields.Targets.len)
      pure { ret with Targets := ts }
    else pure ret
  let ret ←
    if fields.Rules.len > 0 then do
      let rs ← forRange flagRuleBody fields.Rules.toList 0
        (Slice.make FlagRule.zero fields.Rules.len)
      pure { ret with Rules := rs }
    else pure ret
  let ft ← decodeVariationOrRollout fields.Fallthrough
  let ret := { ret with Fallthrough := ft }
  let ov ← maybeVariation fields.OffVariation
  let ret := { ret with OffVariation := ov }
  let ret := { ret with Variations := fields.Variations }
  let ret := { ret with ClientSide := fields.ClientSide }
  let ret := { ret with Salt := fields.Salt }
  let ret := { ret with TrackEvents := fields.TrackEvents }
  let ret := { ret with TrackEventsFallthrough := fields.TrackEventsFallthrough }
  let ret := { ret with DebugEventsUntilDate := fields.DebugEventsUntilDate }
  pure ret

/-- Source `unmarshalFeatureFlag` (lines 89-139). `jsonUnmarshal data` is the state of
`fields` after `json.Unmarshal(data, &fields)` together with the error it returned
(`none` is the nil error). The result pairs the returned flag with the returned error. -/
def unmarshalFeatureFlag {V ε : Type}
    (jsonUnmarshal : List UInt8 → featureFlagJSONRep V × Option ε)
    (PreprocessFlag : FeatureFlag V → FeatureFlag V)
    (data : List UInt8) : Option (FeatureFlag V × Option ε) :=
  match jsonUnmarshal data with
  | (_, some err) => some (FeatureFlag.zero, some err)
  | (fields, none) => do
    let ret ← buildFeatureFlag fields
    let ret := PreprocessFlag ret
    pure (ret, none)

/-- Lines 158-170 of `unmarshalSegment`: the body of the loop over `fields.Rules`. -/
def segmentRuleBody {V : Type} (i : Nat) (r : segmentRuleJSONRep V)
    (rules : Slice (SegmentRule V)) : Option (Slice (SegmentRule V)) := do
  let cs ← decodeClauses r.Clauses
  let sr : SegmentRule V := { (SegmentRule.zero : SegmentRule V) with ID := r.ID, Clauses := cs }
  let sr : SegmentRule V ←
    if r.Weight.isNone then
      pure { sr with Weight := -1 }
    else do
      let w ← deref r.Weight
      pure { sr with Weight := w }
  let sr : SegmentRule V ←
    if r.BucketBy.isSome then do
      let b ← deref r.BucketBy
      pure { sr with BucketBy := b }
    else pure sr
  rules.assign i sr

/-- Lines 147-172 of `unmarshalSegment`: the segment built from the parsed wire value,
before the hook runs. -/
def buildSegment {V : Type} (fields : segmentJSONRep V) : Option (Segment V) := do
  let ret : Segment V :=
    { (Segment.zero : Segment V) with
      Key := fields.Key, Version := fields.Version, Deleted := fields.Deleted,
      Included := fields.Included, Excluded := fields.Excluded, Salt := fields.Salt }
  if fields.Rules.len > 0 then
    let rs ← forRange segmentRuleBody fields.Rules.toList 0
      (Slice.make SegmentRule.zero fields.Rules.len)
    pure { ret with Rules := rs }
  else
    pure ret

/-- Source `unmarshalSegment` (lines 141-176); the parameters are as for
`unmarshalFeatureFlag`. -/
def unmarshalSegment {V ε : Type}
    (jsonUnmarshal : List UInt8 → segmentJSONRep V × Option ε)
    (PreprocessSegment : Segment V → Segment V)
    (data : List UInt8) : Option (Segment V × Option ε) :=
  match jsonUnmarshal data with
  | (_, some err) => some (Segment.zero, some err)
  | (fields, none) => do
    let ret ← buildSegment fields
    let ret := PreprocessSegment ret
    pure (ret, none)

/-! ## Closed forms of the decoder

The values the decoder is shown below to return, written without loops; they are used
only to state and prove the properties of the functions above. -/

/-- The clause with the four fields of a wire clause. -/
def copyClause {V : Type} (c : clauseJSONRep V) : Clause V :=
  { Attribute := c.Attribute, Op := c.Op, Values := c.Values, Negate := c.Negate }

/-- The weighted variation with the two fields of a wire weighted variation. -/
def copyWeightedVariation (wv : weightedVariationJSONRep) : WeightedVariation :=
  { Variation := wv.Variation, Weight := wv.Weight }

/-- The rollout of a decoded pair: the zero rollout for an absent wire rollout, and a
non-nil element-wise copy for a present one. -/
def resolveRollout : Option rolloutJSONRep → Rollout
  | none => Rollout.zero
  | some r =>
    { Variations := Slice.mk (r.Variations.toList.map copyWeightedVariation),
      BucketBy := r.BucketBy }

/-- The decoded form of a wire pair of variation and rollout. -/
def resolveVariationOrRollout (fields : variationOrRolloutJSONRep) : VariationOrRollout :=
  { Variation := fields.Variation.getD NoVariation, Rollout := resolveRollout fields.Rollout }

/-- The slice a guarded copy loop leaves in a field that starts as nil: nil when the wire
slice has length 0, and a non-nil element-wise image otherwise. -/
def mapNonEmpty {α β : Type} (f : α → β) (s : Slice α) : Slice β :=
  if s.len > 0 then Slice.mk (s.toList.map f) else Slice.nil

/-- The decoded form of a wire prerequisite. -/
def copyPrerequisite (p : prerequisiteJSONRep) : Prerequisite :=
  { Key := p.Key, Variation := p.Variation }

/-- The decoded form of a wire target. -/
def copyTarget (t : targetJSONRep) : Target :=
  { Values := t.Values, Variation := t.Variation }

/-- The decoded form of a wire flag rule. -/
def resolveFlagRule {V : Type} (r : flagRuleJSONRep V) : FlagRule V :=
  { VariationOrRollout := resolveVariationOrRollout r.variationOrRolloutJSONRep,
    ID := r.ID,
    Clauses := Slice.mk (r.Clauses.toList.map copyClause),
    TrackEvents := r.TrackEvents }

/-- The decoded form of a wire flag, before the hook. -/
def resolveFeatureFlag {V : Type} (fields : featureFlagJSONRep V) : FeatureFlag V :=
  { Key := fields.Key,
    On := fields.On,
    Prerequisites := mapNonEmpty copyPrerequisite fields.Prerequisites,
    Targets := mapNonEmpty copyTarget fields.Targets,
    Rules := mapNonEmpty resolveFlagRule fields.Rules,
    Fallthrough := resolveVariationOrRollout fields.Fallthrough,
    OffVariation := fields.OffVariation.getD NoVariation,
    Variations := fields.Variations,
    ClientSide := fields.ClientSide,
    Salt := fields.Salt,
    TrackEvents := fields.TrackEvents,
    TrackEventsFallthrough := fields.TrackEventsFallthrough,
    DebugEventsUntilDate := fields.DebugEventsUntilDate,
    Version := fields.Version,
    Deleted := fields.Deleted }

/-- The decoded form of a wire segment rule. -/
def resolveSegmentRule {V : Type} (r : segmentRuleJSONRep V) : SegmentRule V :=
  { ID := r.ID,
    Clauses := Slice.mk (r.Clauses.toList.map copyClause),
    Weight := r.Weight.getD (-1),
    BucketBy := r.BucketBy.getD "" }

/-- The decoded form of a wire segment, before the hook. -/
def resolveSegment {V : Type} (fields : segmentJSONRep V) : Segment V :=
  { Key := fields.Key,
    Included := fields.Included,
    Excluded := fields.Excluded,
    Salt := fields.Salt,
    Rules := mapNonEmpty resolveSegmentRule fields.Rules,
    Version := fields.Version,
    Deleted := fields.Deleted }

/-! ## Concrete inputs -/

/-- Go `var fields featureFlagJSONRep`: the zero wire flag, every field omitted. -/
def featureFlagJSONRep.zero {V : Type} : featureFlagJSONRep V :=
  ⟨"", false, Slice.nil, Slice.nil, Slice.nil, ⟨none, none⟩, none, Slice.nil,
    false, "", false, false, 0, 0, false⟩

/-- Go `var fields segmentJSONRep`: the zero wire segment, every field omitted. -/
def segmentJSONRep.zero {V : Type} : segmentJSONRep V :=
  ⟨"", Slice.nil, Slice.nil, "", Slice.nil, 0, false⟩

/-- A stand-in for `json.Unmarshal` that knows finitely many documents: on a listed
document it fills `fields` with the listed wire value and returns the nil error; on any
other input it leaves `fields` at its zero value and returns an error. It instantiates
the parser parameter of the entry points at concrete inputs. -/
def tableUnmarshal {R : Type} (zero : R) (table : List (List UInt8 × R))
    (data : List UInt8) : R × Option String :=
  match table.lookup data with
  | some fields => (fields, none)
  | none => (zero, some "unexpected end of JSON input")

/-- The bytes of the flag document `{"offVariation":3}`. -/
def docOffVariation3 : List UInt8 :=
  [123, 34, 111, 102, 102, 86, 97, 114, 105, 97, 116, 105, 111, 110, 34, 58, 51, 125]

/-- The wire flag parsed from `{"offVariation":3}`. -/
def wireOffVariation3 : featureFlagJSONRep Bool :=
  { (featureFlagJSONRep.zero : featureFlagJSONRep Bool) with OffVariation := some 3 }

/-- The bytes of the truncated document `{"key": "a"`. -/
def docTruncated : List UInt8 := [123, 34, 107, 101, 121, 34, 58, 32, 34, 97, 34]

/-- The bytes of the segment document `{"rules":[{"weight":50000}]}`. -/
def docWeight50000 : List UInt8 :=
  [123, 34, 114, 117, 108, 101, 115, 34, 58, 91, 123, 34, 119, 101, 105, 103, 104, 116, 34,
    58, 53, 48, 48, 48, 48, 125, 93, 125]

/-- The wire segment parsed from `{"rules":[{"weight":50000}]}`. -/
def wireWeight50000 : segmentJSONRep Bool :=
  { (segmentJSONRep.zero : segmentJSONRep Bool) with
    Rules := Slice.mk [⟨"", Slice.nil, some 50000, none⟩] }

/-- The bytes of the segment document `{"rules":[{"id":"r1"}]}`. -/
def docBareRule : List UInt8 :=
  [123, 34, 114, 117, 108, 101, 115, 34, 58, 91, 123, 34, 105, 100, 34, 58, 34, 114, 49, 34,
    125, 93, 125]

/-- The wire segment parsed from `{"rules":[{"id":"r1"}]}`: one rule, `weight` and
`bucketBy` omitted. -/
def wireBareRule : segmentJSONRep Bool :=
  { (segmentJSONRep.zero : segmentJSONRep Bool) with
    Rules := Slice.mk [⟨"r1", Slice.nil, none, none⟩] }

/-- The wire clause `{attribute:"country", op:"in", values:["US","CA"], negate:true}`, its
values taken as strings. -/
def wireCountryClause : clauseJSONRep String :=
  { Attribute := "country", Op := "in", Values := Slice.mk ["US", "CA"], Negate := true }

/-- A wire pair with both `variation` and `rollout` present. -/
def wireBothPresent : variationOrRolloutJSONRep :=
  { Variation := some 1,
    Rollout := some { Variations := Slice.mk [⟨0, 60000⟩, ⟨1, 40000⟩], BucketBy := "email" } }

/-- The bytes of the flag document `{}`: every list omitted. -/
def docEmptyObject : List UInt8 := [123, 125]

/-- The bytes of the flag document `{"variations":[]}`: the `variations` list given as
empty. -/
def docVariationsEmpty : List UInt8 :=
  [123, 34, 118, 97, 114, 105, 97, 116, 105, 111, 110, 115, 34, 58, 91, 93, 125]

/-- The wire flag parsed from `{"variations":[]}`: `json.Unmarshal` stores a non-nil
empty slice for `[]`. -/
def wireVariationsEmpty : featureFlagJSONRep Bool :=
  { (featureFlagJSONRep.zero : featureFlagJSONRep Bool) with Variations := Slice.mk [] }

/-- The flag parser used at concrete inputs. -/
def flagUnmarshal : List UInt8 → featureFlagJSONRep Bool × Option String :=
  tableUnmarshal featureFlagJSONRep.zero
    [(docOffVariation3, wireOffVariation3), (docEmptyObject, featureFlagJSONRep.zero),
      (docVariationsEmpty, wireVariationsEmpty)]

/-- The segment parser used at concrete inputs. -/
def segmentUnmarshal : List UInt8 → segmentJSONRep Bool × Option String :=
  tableUnmarshal segmentJSONRep.zero
    [(docWeight50000, wireWeight50000), (docBareRule, wireBareRule)]

/-- A stand-in for a `json.Unmarshal` of a flag that has already stored the key "a" in
`fields` when it meets the end of the truncated document `{"key": "a"`. -/
def flagUnmarshalPartial (data : List UInt8) : featureFlagJSONRep Bool × Option String :=
  if data = docTruncated then
    ({ (featureFlagJSONRep.zero : featureFlagJSONRep Bool) with Key := "a" },
      some "unexpected end of JSON input")
  else flagUnmarshal data

/-- A stand-in for a `json.Unmarshal` of a segment that has already stored the key "a" in
`fields` when it meets the end of the truncated document `{"key": "a"`. -/
def segmentUnmarshalPartial (data : List UInt8) : segmentJSONRep Bool × Option String :=
  if data = docTruncated then
    ({ (segmentJSONRep.zero : segmentJSONRep Bool) with Key := "a" },
      some "unexpected end of JSON input")
  else segmentUnmarshal data

/-- A flag hook that leaves a visible mark each time it runs: it appends "!" to the
salt. -/
def markFlag (f : FeatureFlag Bool) : FeatureFlag Bool := { f with Salt := f.Salt ++ "!" }

/-- A segment hook that leaves a visible mark each time it runs: it appends "!" to the
salt. -/
def markSegment (s : Segment Bool) : Segment Bool := { s with Salt := s.Salt ++ "!" }

/-- The bytes of the flag document
`{"key":"flag1","on":true,"offVariation":null,"fallthrough":{"variation":0},"variations":[true,false],"version":1}`. -/
def docFlag1 : List UInt8 :=
  [123, 34, 107, 101, 121, 34, 58, 34, 102, 108, 97, 103, 49, 34, 44, 34, 111, 110, 34, 58,
    116, 114, 117, 101, 44, 34, 111, 102, 102, 86, 97, 114, 105, 97, 116, 105, 111, 110,
    34, 58, 110, 117, 108, 108, 44, 34, 102, 97, 108, 108, 116, 104, 114, 111, 117, 103,
    104, 34, 58, 123, 34, 118, 97, 114, 105, 97, 116, 105, 111, 110, 34, 58, 48, 125, 44,
    34, 118, 97, 114, 105, 97, 116, 105, 111, 110, 115, 34, 58, 91, 116, 114, 117, 101, 44,
    102, 97, 108, 115, 101, 93, 44, 34, 118, 101, 114, 115, 105, 111, 110, 34, 58, 49, 125]

/-- The wire flag parsed from the document of `docFlag1`: `null` and the omitted fields
leave their pointers and slices nil. -/
def wireFlag1 : featureFlagJSONRep Bool :=
  { (featureFlagJSONRep.zero : featureFlagJSONRep Bool) with
    Key := "flag1", On := true, Fallthrough := ⟨some 0, none⟩,
    Variations := Slice.mk [true, false], Version := 1 }

/-- The flag parser used at the document of `docFlag1`. -/
def flagUnmarshalFlag1 : List UInt8 → featureFlagJSONRep Bool × Option String :=
  tableUnmarshal featureFlagJSONRep.zero [(docFlag1, wireFlag1)]

/-- The bytes of the segment document `{"rules":[{"id":"r2","bucketBy":"email"}]}`. -/
def docEmailRule : List UInt8 :=
  [123, 34, 114, 117, 108, 101, 115, 34, 58, 91, 123, 34, 105, 100, 34, 58, 34, 114, 50,
    34, 44, 34, 98, 117, 99, 107, 101, 116, 66, 121, 34, 58, 34, 101, 109, 97, 105, 108,
    34, 125, 93, 125]

/-- The wire segment parsed from `{"rules":[{"id":"r2","bucketBy":"email"}]}`. -/
def wireEmailRule : segmentJSONRep Bool :=
  { (segmentJSONRep.zero : segmentJSONRep Bool) with
    Rules := Slice.mk [⟨"r2", Slice.nil, none, some "email"⟩] }

/-- The segment parser used at the document of `docEmailRule`. -/
def segmentUnmarshalEmail : List UInt8 → segmentJSONRep Bool × Option String :=
  tableUnmarshal segmentJSONRep.zero [(docEmailRule, wireEmailRule)]

/-- A wire flag with two prerequisites, one target and one rule, the rule carrying a
clause and a variation, as parsed from
`{"key":"f","prerequisites":[{"key":"a","variation":1},{"key":"b","variation":0}],
"targets":[{"values":["u1","u2"],"variation":1}],
"rules":[{"id":"r1","clauses":[{"attribute":"name","op":"in","values":[true]}],
"variation":0,"trackEvents":true}]}`. -/
def wireFlagLists : featureFlagJSONRep Bool :=
  { (featureFlagJSONRep.zero : featureFlagJSONRep Bool) with
    Key := "f",
    Prerequisites := Slice.mk [⟨"a", 1⟩, ⟨"b", 0⟩],
    Targets := Slice.mk [⟨Slice.mk ["u1", "u2"], 1⟩],
    Rules := Slice.mk
      [⟨⟨some 0, none⟩, "r1", Slice.mk [⟨"name", "in", Slice.mk [true], false⟩], true⟩] }

/-! ## Lemmas on the copy loops -/

theorem Slice.assign_append {β : Type} (pre : List β) (m v : β) (post : List β) :
    (Slice.mk (pre ++ m :: post)).assign pre.length v = some (Slice.mk (pre ++ v :: post)) := by
  simp [Slice.assign]

theorem forRange_copy_aux {α β : Type} (f : α → β)
    (body : Nat → α → Slice β → Option (Slice β))
    (xs : List α) (hbody : ∀ i x s, x ∈ xs → body i x s = s.assign i (f x)) :
    ∀ (pre mid : List β), mid.length = xs.length →
      forRange body xs pre.length (Slice.mk (pre ++ mid)) = some (Slice.mk (pre ++ xs.map f)) := by
  induction xs with
  | nil =>
    intro pre mid h
    have hm : mid = [] := List.length_eq_zero.mp h
    simp [forRange, hm]
  | cons x xs ih =>
    intro pre mid h
    cases mid with
    | nil => simp at h
    | cons m mid =>
      have hx := hbody pre.length x (Slice.mk (pre ++ m :: mid)) (List.mem_cons_self x xs)
      have ih1 := ih (fun i y s hy => hbody i y s (List.mem_cons_of_mem x hy)) (pre ++ [f x]) mid
        (by simpa using h)
      simp only [forRange, hx, Slice.assign_append, Option.some_bind]
      simpa using ih1

/-- A copy loop over `xs` into a fresh `make` of the same length writes every index in
bounds and leaves the element-wise image of `xs`. -/
theorem forRange_copy {α β : Type} (f : α → β) (zero : β)
    (body : Nat → α → Slice β → Option (Slice β))
    (xs : List α) (hbody : ∀ i x s, x ∈ xs → body i x s = s.assign i (f x)) :
    forRange body xs 0 (Slice.make zero xs.length) = some (Slice.mk (xs.map f)) := by
  have h := forRange_copy_aux f body xs hbody [] (List.replicate xs.length zero) (by simp)
  simpa [Slice.make] using h

theorem maybeVariation_eq (value : Option Int) :
    maybeVariation value = some (value.getD NoVariation) := by
  cases value <;> simp [maybeVariation, deref]

theorem decodeClauses_eq {V : Type} (clauses : Slice (clauseJSONRep V)) :
    decodeClauses clauses = some (Slice.mk (clauses.toList.map copyClause)) := by
  unfold decodeClauses Slice.len
  exact forRange_copy copyClause Clause.zero _ clauses.toList (fun _ _ _ _ => rfl)

theorem decodeVariationOrRollout_eq (fields : variationOrRolloutJSONRep) :
    decodeVariationOrRollout fields = some (resolveVariationOrRollout fields) := by
  obtain ⟨v, r⟩ := fields
  cases r with
  | none =>
    simp [decodeVariationOrRollout, maybeVariation_eq, resolveVariationOrRollout,
      resolveRollout, VariationOrRollout.zero]
  | some r =>
    have hloop := forRange_copy copyWeightedVariation WeightedVariation.zero
      (fun i (wv : weightedVariationJSONRep) (s : Slice WeightedVariation) =>
        s.assign i { Variation := wv.Variation, Weight := wv.Weight })
      r.Variations.toList (fun _ _ _ _ => rfl)
    simp [decodeVariationOrRollout, maybeVariation_eq, resolveVariationOrRollout,
      resolveRollout, VariationOrRollout.zero, deref, Slice.len, hloop]

theorem flagRuleBody_eq {V : Type} (i : Nat) (r : flagRuleJSONRep V) (rules : Slice (FlagRule V)) :
    flagRuleBody i r rules = rules.assign i (resolveFlagRule r) := by
  simp [flagRuleBody, decodeVariationOrRollout_eq, decodeClauses_eq, resolveFlagRule]

theorem segmentRuleBody_eq {V : Type} (i : Nat) (r : segmentRuleJSONRep V)
    (rules : Slice (SegmentRule V)) :
    segmentRuleBody i r rules = rules.assign i (resolveSegmentRule r) := by
  obtain ⟨id, cs, w, b⟩ := r
  cases w <;> cases b <;>
    simp [segmentRuleBody, decodeClauses_eq, resolveSegmentRule, deref, SegmentRule.zero]

theorem buildFeatureFlag_eq {V : Type} (fields : featureFlagJSONRep V) :
    buildFeatureFlag fields = some (resolveFeatureFlag fields) := by
  have hp := forRange_copy copyPrerequisite Prerequisite.zero
    (fun i (p : prerequisiteJSONRep) (s : Slice Prerequisite) =>
      s.assign i { Key := p.Key, Variation := p.Variation })
    fields.Prerequisites.toList (fun _ _ _ _ => rfl)
  have ht := forRange_copy copyTarget Target.zero
    (fun i (t : targetJSONRep) (s : Slice Target) =>
      s.assign i { Values := t.Values, Variation := t.Variation })
    fields.Targets.toList (fun _ _ _ _ => rfl)
  have hr := forRange_copy resolveFlagRule (FlagRule.zero : FlagRule V) flagRuleBody
    fields.Rules.toList (fun i x t _ => flagRuleBody_eq i x t)
  unfold buildFeatureFlag resolveFeatureFlag mapNonEmpty
  by_cases h1 : fields.Prerequisites.len > 0 <;>
  by_cases h2 : fields.Targets.len > 0 <;>
  by_cases h3 : fields.Rules.len > 0 <;>
    simp [h1, h2, h3, Slice.len, hp, ht, hr, decodeVariationOrRollout_eq, maybeVariation_eq,
      FeatureFlag.zero] <;>
    simp_all [Slice.len]

theorem buildSegment_eq {V : Type} (fields : segmentJSONRep V) :
    buildSegment fields = some (resolveSegment fields) := by
  have hr := forRange_copy resolveSegmentRule (SegmentRule.zero : SegmentRule V) segmentRuleBody
    fields.Rules.toList (fun i x t _ => segmentRuleBody_eq i x t)
  unfold buildSegment resolveSegment mapNonEmpty
  by_cases h3 : fields.Rules.len > 0 <;>
    simp [h3, Slice.len, hr, Segment.zero] <;>
    simp_all [Slice.len]

theorem mapNonEmpty_toList {α β : Type} (f : α → β) (s : Slice α) :
    (mapNonEmpty f s).toList = s.toList.map f := by
  unfold mapNonEmpty
  split
  · rfl
  · next h =>
    have h0 : s.toList = [] := List.length_eq_zero.mp (by simpa [Slice.len] using h)
    rw [h0]
    rfl

theorem mapNonEmpty_len {α β : Type} (f : α → β) (s : Slice α) :
    (mapNonEmpty f s).len = s.len := by
  simp [Slice.len, mapNonEmpty_toList]

theorem mapNonEmpty_eq_nil_iff {α β : Type} (f : α → β) (s : Slice α) :
    mapNonEmpty f s = Slice.nil ↔ s.len = 0 := by
  unfold mapNonEmpty
  split
  · next h => simp; omega
  · next h => simp; omega

theorem mapNonEmpty_getElem_some {α β : Type} (f : α → β) (s : Slice α) (i : Nat) (x : α)
    (h : s.toList[i]? = some x) : (mapNonEmpty f s).toList[i]? = some (f x) := by
  simp [mapNonEmpty_toList, h]

theorem Slice.toList_nil {α : Type} : (Slice.nil : Slice α).toList = [] := rfl

theorem Slice.toList_mk {α : Type} (xs : List α) : (Slice.mk xs).toList = xs := rfl

theorem unmarshalFeatureFlag_ok {V ε : Type}
    (jsonUnmarshal : List UInt8 → featureFlagJSONRep V × Option ε)
    (PreprocessFlag : FeatureFlag V → FeatureFlag V) (data : List UInt8)
    (fields : featureFlagJSONRep V) (hparse : jsonUnmarshal data = (fields, none)) :
    unmarshalFeatureFlag jsonUnmarshal PreprocessFlag data
      = some (PreprocessFlag (resolveFeatureFlag fields), none) := by
  simp [unmarshalFeatureFlag, hparse, buildFeatureFlag_eq]

theorem unmarshalSegment_ok {V ε : Type}
    (jsonUnmarshal : List UInt8 → segmentJSONRep V × Option ε)
    (PreprocessSegment : Segment V → Segment V) (data : List UInt8)
    (fields : segmentJSONRep V) (hparse : jsonUnmarshal data = (fields, none)) :
    unmarshalSegment jsonUnmarshal PreprocessSegment data
      = some (PreprocessSegment (resolveSegment fields), none) := by
  simp [unmarshalSegment, hparse, buildSegment_eq]

/-! ## The claims -/

/-- C1: when the parse succeeds with wire value `fields` (a JSON `null` and an omitted
field both leave the pointer nil, here `none`) and the hook leaves `OffVariation` unchanged, `unmarshalFeatureFlag` returns a flag with the nil error whose `OffVariation`
is `NoVariation`, that is -1, when the wire `offVariation` is absent, and is `n` when the
wire `offVariation` is present with value `n`. -/
theorem unmarshalFeatureFlag_offVariation {V ε : Type}
    (jsonUnmarshal : List UInt8 → featureFlagJSONRep V × Option ε)
    (PreprocessFlag : FeatureFlag V → FeatureFlag V) (data : List UInt8)
    (fields : featureFlagJSONRep V)
    (hparse : jsonUnmarshal data = (fields, none))
    (hhook : ∀ f, (PreprocessFlag f).OffVariation = f.OffVariation) :
    ∃ ret, unmarshalFeatureFlag jsonUnmarshal PreprocessFlag data = some (ret, none) ∧
      (fields.OffVariation = none → ret.OffVariation = NoVariation ∧ ret.OffVariation = -1) ∧
      (∀ n, fields.OffVariation = some n → ret.OffVariation = n) := by
  refine ⟨_, unmarshalFeatureFlag_ok jsonUnmarshal PreprocessFlag data fields hparse, ?_, ?_⟩
  · intro h
    simp [hhook, resolveFeatureFlag, h, NoVariation]
  · intro n h
    simp [hhook, resolveFeatureFlag, h]

/-- C1 at the document `{"offVariation":3}` with the identity hook: the returned flag has
`OffVariation` 3. -/
theorem unmarshalFeatureFlag_offVariation_witness :
    flagUnmarshal docOffVariation3 = (wireOffVariation3, none) ∧
    (∀ f : FeatureFlag Bool, (id f).OffVariation = f.OffVariation) ∧
    ∃ ret, unmarshalFeatureFlag flagUnmarshal id docOffVariation3 = some (ret, none) ∧
      ret.OffVariation = 3 := by
  have hparse : flagUnmarshal docOffVariation3 = (wireOffVariation3, none) := by decide
  obtain ⟨ret, hret, _, hsome⟩ :=
    unmarshalFeatureFlag_offVariation flagUnmarshal id docOffVariation3 wireOffVariation3
      hparse (fun _ => rfl)
  exact ⟨hparse, fun _ => rfl, ret, hret, hsome 3 rfl⟩

/-- C2: `maybeVariation` returns `NoVariation`, that is -1, for an absent value and the
contained integer unchanged for a present one. -/
theorem maybeVariation_sentinel :
    maybeVariation none = some NoVariation ∧ NoVariation = -1 ∧
    ∀ n : Int, maybeVariation (some n) = some n := by
  refine ⟨rfl, rfl, ?_⟩
  intro n
  rfl

/-- C3: when the parse succeeds with wire value `fields` whose `i`-th rule is `r`,
`unmarshalSegment` builds a segment, hands it to the hook and returns the nil error, and
the `i`-th rule of the built segment has `Weight` -1 when `r.Weight` is absent and
`Weight` `w` when `r.Weight` is present with value `w`. -/
theorem unmarshalSegment_rule_weight {V ε : Type}
    (jsonUnmarshal : List UInt8 → segmentJSONRep V × Option ε)
    (PreprocessSegment : Segment V → Segment V) (data : List UInt8)
    (fields : segmentJSONRep V) (i : Nat) (r : segmentRuleJSONRep V)
    (hparse : jsonUnmarshal data = (fields, none))
    (hr : fields.Rules.toList[i]? = some r) :
    ∃ seg sr, buildSegment fields = some seg ∧
      unmarshalSegment jsonUnmarshal PreprocessSegment data
        = some (PreprocessSegment seg, none) ∧
      seg.Rules.toList[i]? = some sr ∧
      (r.Weight = none → sr.Weight = -1) ∧
      (∀ w, r.Weight = some w → sr.Weight = w) := by
  refine ⟨resolveSegment fields, resolveSegmentRule r, buildSegment_eq fields,
    unmarshalSegment_ok jsonUnmarshal PreprocessSegment data fields hparse, ?_, ?_, ?_⟩
  · simp [resolveSegment, mapNonEmpty_toList, hr]
  · intro h
    simp [resolveSegmentRule, h]
  · intro w h
    simp [resolveSegmentRule, h]

/-- C3 at the document `{"rules":[{"weight":50000}]}`: rule 0 of the built segment has
`Weight` 50000. -/
theorem unmarshalSegment_rule_weight_witness :
    segmentUnmarshal docWeight50000 = (wireWeight50000, none) ∧
    wireWeight50000.Rules.toList[0]? = some ⟨"", Slice.nil, some 50000, none⟩ ∧
    ∃ seg sr, buildSegment wireWeight50000 = some seg ∧
      unmarshalSegment segmentUnmarshal id docWeight50000 = some (seg, none) ∧
      seg.Rules.toList[0]? = some sr ∧ sr.Weight = 50000 := by
  have hparse : segmentUnmarshal docWeight50000 = (wireWeight50000, none) := by decide
  obtain ⟨seg, sr, hb, hu, hi, _, hw⟩ :=
    unmarshalSegment_rule_weight segmentUnmarshal id docWeight50000 wireWeight50000 0
      ⟨"", Slice.nil, some 50000, none⟩ hparse rfl
  exact ⟨hparse, rfl, seg, sr, hb, hu, hi, hw 50000 rfl⟩

/-- C4, counterexample: for the document `{"rules":[{"id":"r1"}]}`, whose only rule has no
`bucketBy`, the rule of the built segment has the empty attribute as `BucketBy`, not the
canonical "key" attribute. -/
theorem segmentRule_bucketBy_absent_counterexample :
    ∃ seg sr, segmentUnmarshal docBareRule = (wireBareRule, none) ∧
      wireBareRule.Rules.toList[0]? = some ⟨"r1", Slice.nil, none, none⟩ ∧
      unmarshalSegment segmentUnmarshal id docBareRule = some (seg, none) ∧
      seg.Rules.toList[0]? = some sr ∧
      sr.BucketBy = "" ∧ sr.BucketBy ≠ KeyAttribute := by
  refine ⟨⟨"", Slice.nil, Slice.nil, "", Slice.mk [⟨"r1", Slice.mk [], -1, ""⟩], 0, false⟩,
    ⟨"r1", Slice.mk [], -1, ""⟩, ?_, ?_, ?_, ?_, ?_, ?_⟩ <;> decide

/-- C4, amended: when the parse succeeds with wire value `fields` whose `i`-th rule `r` has
no `bucketBy`, the `i`-th rule of the segment built by `unmarshalSegment` has the
zero-value (empty) attribute as `BucketBy`, which is not the canonical "key" attribute. -/
theorem unmarshalSegment_rule_bucketBy_absent {V ε : Type}
    (jsonUnmarshal : List UInt8 → segmentJSONRep V × Option ε)
    (PreprocessSegment : Segment V → Segment V) (data : List UInt8)
    (fields : segmentJSONRep V) (i : Nat) (r : segmentRuleJSONRep V)
    (hparse : jsonUnmarshal data = (fields, none))
    (hr : fields.Rules.toList[i]? = some r)
    (habsent : r.BucketBy = none) :
    ∃ seg sr, buildSegment fields = some seg ∧
      unmarshalSegment jsonUnmarshal PreprocessSegment data
        = some (PreprocessSegment seg, none) ∧
      seg.Rules.toList[i]? = some sr ∧
      sr.BucketBy = "" ∧ sr.BucketBy ≠ KeyAttribute := by
  refine ⟨resolveSegment fields, resolveSegmentRule r, buildSegment_eq fields,
    unmarshalSegment_ok jsonUnmarshal PreprocessSegment data fields hparse, ?_, ?_, ?_⟩
  · simp [resolveSegment, mapNonEmpty_toList, hr]
  · simp [resolveSegmentRule, habsent]
  · simp only [resolveSegmentRule, habsent, Option.getD_none]
    decide

/-- C4, amended, at the document `{"rules":[{"id":"r1"}]}`. -/
theorem unmarshalSegment_rule_bucketBy_absent_witness :
    segmentUnmarshal docBareRule = (wireBareRule, none) ∧
    wireBareRule.Rules.toList[0]? = some ⟨"r1", Slice.nil, none, none⟩ ∧
    ∃ seg sr, buildSegment wireBareRule = some seg ∧
      unmarshalSegment segmentUnmarshal id docBareRule = some (id seg, none) ∧
      seg.Rules.toList[0]? = some sr ∧
      sr.BucketBy = "" ∧ sr.BucketBy ≠ KeyAttribute :=
  ⟨by decide, rfl,
    unmarshalSegment_rule_bucketBy_absent segmentUnmarshal id docBareRule wireBareRule 0
      ⟨"r1", Slice.nil, none, none⟩ (by decide) rfl rfl⟩

/-- C5: `decodeClauses` returns, without panic, a non-nil slice of the same length as the
wire list whose `i`-th clause has the `Attribute`, `Op`, `Values` and `Negate` of the
`i`-th wire clause; the clause `{attribute:"country", op:"in", values:["US","CA"],
negate:true}` decodes to the clause with the same four fields. -/
theorem decodeClauses_copy {V : Type} (cs : Slice (clauseJSONRep V)) :
    (∃ out, decodeClauses cs = some (Slice.mk out) ∧
      out.length = cs.len ∧
      ∀ (i : Nat) (c : clauseJSONRep V), cs.toList[i]? = some c →
        ∃ d : Clause V, out[i]? = some d ∧ d.Attribute = c.Attribute ∧ d.Op = c.Op ∧
          d.Values = c.Values ∧ d.Negate = c.Negate) ∧
    decodeClauses (Slice.mk [wireCountryClause])
      = some (Slice.mk [⟨"country", "in", Slice.mk ["US", "CA"], true⟩]) := by
  refine ⟨⟨cs.toList.map copyClause, decodeClauses_eq cs, by simp [Slice.len], ?_⟩, by decide⟩
  intro i c hc
  exact ⟨copyClause c, by simp [hc], rfl, rfl, rfl, rfl⟩

/-- C6: `decodeVariationOrRollout` returns, without panic, a value whose `Variation` is
what `maybeVariation` gives for the wire variation, whether or not a rollout is present.
With a rollout present, `Rollout.Variations` has the length of the wire list, the same
variation and weight at every index, and `Rollout.BucketBy` is the wire `bucketBy`. With
the rollout absent, `Rollout.Variations` is empty and `Rollout.BucketBy` is the zero
value. Both present keeps both; both absent gives `Variation` -1 with the zero rollout. -/
theorem decodeVariationOrRollout_spec (p : variationOrRolloutJSONRep) :
    (∃ ret, decodeVariationOrRollout p = some ret ∧
      maybeVariation p.Variation = some ret.Variation ∧
      (∀ r, p.Rollout = some r →
        ret.Rollout.Variations.len = r.Variations.len ∧
        (∀ (i : Nat) (wv : weightedVariationJSONRep), r.Variations.toList[i]? = some wv →
          ret.Rollout.Variations.toList[i]? = some ⟨wv.Variation, wv.Weight⟩) ∧
        ret.Rollout.BucketBy = r.BucketBy) ∧
      (p.Rollout = none →
        ret.Rollout.Variations.len = 0 ∧ ret.Rollout.Variations.toList = [] ∧
        ret.Rollout.BucketBy = "" ∧ ret.Rollout = Rollout.zero)) ∧
    decodeVariationOrRollout wireBothPresent
      = some ⟨1, ⟨Slice.mk [⟨0, 60000⟩, ⟨1, 40000⟩], "email"⟩⟩ ∧
    decodeVariationOrRollout ⟨none, none⟩ = some ⟨-1, ⟨Slice.nil, ""⟩⟩ := by
  refine ⟨⟨resolveVariationOrRollout p, decodeVariationOrRollout_eq p,
    maybeVariation_eq p.Variation, ?_, ?_⟩, by decide, by decide⟩
  · intro r hr
    refine ⟨?_, ?_, ?_⟩
    · simp [resolveVariationOrRollout, resolveRollout, hr, Slice.len, Slice.toList]
    · intro i wv hwv
      have hm : (r.Variations.toList.map copyWeightedVariation)[i]?
          = some (copyWeightedVariation wv) := by simp [hwv]
      simp only [resolveVariationOrRollout, resolveRollout, hr]
      exact hm
    · simp [resolveVariationOrRollout, resolveRollout, hr]
  · intro hr
    simp [resolveVariationOrRollout, resolveRollout, hr, Rollout.zero, Slice.len,
      Slice.toList]

/-- C7: when the outermost parse of the flag input fails with error `eF`,
`unmarshalFeatureFlag` returns the zero-value `FeatureFlag` together with exactly `eF`, and
when the parse of the segment input fails with `eS`, `unmarshalSegment` returns the
zero-value `Segment` together with exactly `eS`, whatever the parser has left in `fields`
and whatever the hook is. -/
theorem unmarshal_parse_error {V ε : Type}
    (flagParse : List UInt8 → featureFlagJSONRep V × Option ε)
    (segmentParse : List UInt8 → segmentJSONRep V × Option ε)
    (PreprocessFlag : FeatureFlag V → FeatureFlag V)
    (PreprocessSegment : Segment V → Segment V)
    (dataF dataS : List UInt8) (eF eS : ε)
    (hF : (flagParse dataF).2 = some eF) (hS : (segmentParse dataS).2 = some eS) :
    unmarshalFeatureFlag flagParse PreprocessFlag dataF = some (FeatureFlag.zero, some eF) ∧
    unmarshalSegment segmentParse PreprocessSegment dataS = some (Segment.zero, some eS) := by
  constructor
  · unfold unmarshalFeatureFlag
    rcases hp : flagParse dataF with ⟨fields, err⟩
    rw [hp] at hF
    simp only at hF
    subst hF
    rfl
  · unfold unmarshalSegment
    rcases hp : segmentParse dataS with ⟨fields, err⟩
    rw [hp] at hS
    simp only at hS
    subst hS
    rfl

/-- C7 at the truncated document `{"key": "a"`, with parsers that have stored the key
before failing: the returned flag and segment are the zero values, with the empty key. -/
theorem unmarshal_parse_error_witness :
    (flagUnmarshalPartial docTruncated).2 = some "unexpected end of JSON input" ∧
    (flagUnmarshalPartial docTruncated).1.Key = "a" ∧
    (segmentUnmarshalPartial docTruncated).2 = some "unexpected end of JSON input" ∧
    unmarshalFeatureFlag flagUnmarshalPartial id docTruncated
      = some (FeatureFlag.zero, some "unexpected end of JSON input") ∧
    unmarshalSegment segmentUnmarshalPartial id docTruncated
      = some (Segment.zero, some "unexpected end of JSON input") ∧
    (FeatureFlag.zero : FeatureFlag Bool).Key = "" :=
  ⟨by decide, by decide, by decide,
    (unmarshal_parse_error flagUnmarshalPartial segmentUnmarshalPartial id id
      docTruncated docTruncated "unexpected end of JSON input" "unexpected end of JSON input"
      (by decide) (by decide)).1,
    (unmarshal_parse_error flagUnmarshalPartial segmentUnmarshalPartial id id
      docTruncated docTruncated "unexpected end of JSON input" "unexpected end of JSON input"
      (by decide) (by decide)).2,
    rfl⟩

/-- C8: in the embedding an indexed write panics exactly when the index is out of bounds
and a dereference panics exactly on the nil pointer; `maybeVariation`, `decodeClauses`,
`decodeVariationOrRollout` and the two builders return a value on every input, so no
write of a copy loop is out of bounds and no nil pointer is dereferenced; and whenever
the outermost parse succeeds, `unmarshalFeatureFlag` and `unmarshalSegment` return the
hook's result with the nil error. -/
theorem decode_total {V ε : Type} :
    (∀ (α : Type) (s : Slice α) (i : Nat) (v : α), s.assign i v = none ↔ ¬ i < s.len) ∧
    (∀ (α : Type) (p : Option α), deref p = none ↔ p = none) ∧
    (∀ v : Option Int, ∃ n, maybeVariation v = some n) ∧
    (∀ cs : Slice (clauseJSONRep V), ∃ out, decodeClauses cs = some out) ∧
    (∀ p : variationOrRolloutJSONRep, ∃ ret, decodeVariationOrRollout p = some ret) ∧
    (∀ (parse : List UInt8 → featureFlagJSONRep V × Option ε)
        (hook : FeatureFlag V → FeatureFlag V) (data : List UInt8),
      (parse data).2 = none →
        ∃ ret, buildFeatureFlag (parse data).1 = some ret ∧
          unmarshalFeatureFlag parse hook data = some (hook ret, none)) ∧
    (∀ (parse : List UInt8 → segmentJSONRep V × Option ε)
        (hook : Segment V → Segment V) (data : List UInt8),
      (parse data).2 = none →
        ∃ ret, buildSegment (parse data).1 = some ret ∧
          unmarshalSegment parse hook data = some (hook ret, none)) := by
  refine ⟨?_, ?_, fun v => ⟨_, maybeVariation_eq v⟩, fun cs => ⟨_, decodeClauses_eq cs⟩,
    fun p => ⟨_, decodeVariationOrRollout_eq p⟩, ?_, ?_⟩
  · intro α s i v
    cases s with
    | nil => simp [Slice.assign, Slice.len, Slice.toList]
    | mk xs => simp [Slice.assign, Slice.len, Slice.toList]
  · intro α p
    cases p <;> simp [deref]
  · intro parse hook data h
    refine ⟨_, buildFeatureFlag_eq _, ?_⟩
    exact unmarshalFeatureFlag_ok parse hook data (parse data).1 (Prod.ext rfl h)
  · intro parse hook data h
    refine ⟨_, buildSegment_eq _, ?_⟩
    exact unmarshalSegment_ok parse hook data (parse data).1 (Prod.ext rfl h)

/-- C9: for each of `prerequisites`, `targets` and `rules`, the wire value with that list
omitted (nil) and the wire value with that list present but empty, all other fields being
those of `fields`, build without panic the same flag, whose corresponding list has
length 0; and a parse that yields either wire value makes `unmarshalFeatureFlag` return
the hook's result on that flag with the nil error. -/
theorem buildFeatureFlag_empty_lists {V : Type} (fields : featureFlagJSONRep V) :
    (∃ ret, buildFeatureFlag { fields with Prerequisites := Slice.nil } = some ret ∧
      buildFeatureFlag { fields with Prerequisites := Slice.mk [] } = some ret ∧
      ret.Prerequisites.len = 0) ∧
    (∃ ret, buildFeatureFlag { fields with Targets := Slice.nil } = some ret ∧
      buildFeatureFlag { fields with Targets := Slice.mk [] } = some ret ∧
      ret.Targets.len = 0) ∧
    (∃ ret, buildFeatureFlag { fields with Rules := Slice.nil } = some ret ∧
      buildFeatureFlag { fields with Rules := Slice.mk [] } = some ret ∧
      ret.Rules.len = 0) ∧
    (∀ (ε : Type) (parse : List UInt8 → featureFlagJSONRep V × Option ε)
        (hook : FeatureFlag V → FeatureFlag V) (data : List UInt8)
        (wire : featureFlagJSONRep V),
      parse data = (wire, none) →
      wire.Prerequisites.len = 0 → wire.Targets.len = 0 → wire.Rules.len = 0 →
        ∃ ret, unmarshalFeatureFlag parse hook data = some (hook ret, none) ∧
          buildFeatureFlag wire = some ret ∧
          ret.Prerequisites.len = 0 ∧ ret.Targets.len = 0 ∧ ret.Rules.len = 0) := by
  refine ⟨⟨_, buildFeatureFlag_eq _, ?_, ?_⟩, ⟨_, buildFeatureFlag_eq _, ?_, ?_⟩,
    ⟨_, buildFeatureFlag_eq _, ?_, ?_⟩, ?_⟩
  · rw [buildFeatureFlag_eq]; rfl
  · rfl
  · rw [buildFeatureFlag_eq]; rfl
  · rfl
  · rw [buildFeatureFlag_eq]; rfl
  · rfl
  · intro ε parse hook data wire hparse h1 h2 h3
    refine ⟨_, unmarshalFeatureFlag_ok parse hook data wire hparse, buildFeatureFlag_eq _,
      ?_, ?_, ?_⟩ <;>
      simp [resolveFeatureFlag, Slice.len, mapNonEmpty_toList] <;> simp_all [Slice.len]

/-- C10, counterexample: the documents `{}` and `{"variations":[]}` decode to flags whose
`Variations` are the nil slice and a non-nil empty slice: both have length 0, yet the two
flags differ, so the omitted list is told apart from the empty one; and the flag decoded
from `{}` carries nil slices in `Prerequisites`, `Targets` and `Rules`. -/
theorem built_lists_nil_counterexample :
    ∃ f1 f2 : FeatureFlag Bool,
      flagUnmarshal docEmptyObject = (featureFlagJSONRep.zero, none) ∧
      flagUnmarshal docVariationsEmpty = (wireVariationsEmpty, none) ∧
      unmarshalFeatureFlag flagUnmarshal id docEmptyObject = some (f1, none) ∧
      unmarshalFeatureFlag flagUnmarshal id docVariationsEmpty = some (f2, none) ∧
      f1.Variations = Slice.nil ∧ f2.Variations = Slice.mk [] ∧
      f1.Variations.len = 0 ∧ f2.Variations.len = 0 ∧
      f1.Variations.isNil = true ∧ f2.Variations.isNil = false ∧ f1 ≠ f2 ∧
      f1.Prerequisites.isNil = true ∧ f1.Targets.isNil = true ∧ f1.Rules.isNil = true := by
  refine ⟨resolveFeatureFlag featureFlagJSONRep.zero, resolveFeatureFlag wireVariationsEmpty,
    ?_, ?_, ?_, ?_, ?_, ?_, ?_, ?_, ?_, ?_, ?_, ?_, ?_, ?_⟩ <;> decide

/-- C10, amended: every list-valued field of the built flag or segment has the length of
the wire list. `Prerequisites`, `Targets` and `Rules` are the nil slice exactly when the
wire list has length 0, omitted or empty alike. The `Clauses` of every rule are a non-nil
slice. The lists copied as they are (`Variations`, `Included`, `Excluded`, the `Values`
of a target and of a clause) are the wire slices themselves, nil when omitted and non-nil
when given. The weighted variations of a rollout are nil when the wire rollout is absent
and non-nil when it is present. -/
theorem built_lists_shape {V : Type} :
    (∀ fields : featureFlagJSONRep V, ∃ ret, buildFeatureFlag fields = some ret ∧
      ret.Prerequisites.len = fields.Prerequisites.len ∧
      (ret.Prerequisites = Slice.nil ↔ fields.Prerequisites.len = 0) ∧
      ret.Targets.len = fields.Targets.len ∧
      (ret.Targets = Slice.nil ↔ fields.Targets.len = 0) ∧
      ret.Rules.len = fields.Rules.len ∧
      (ret.Rules = Slice.nil ↔ fields.Rules.len = 0) ∧
      ret.Variations = fields.Variations ∧
      (fields.Fallthrough.Rollout = none → ret.Fallthrough.Rollout.Variations = Slice.nil) ∧
      (∀ ro, fields.Fallthrough.Rollout = some ro →
        ret.Fallthrough.Rollout.Variations.isNil = false ∧
        ret.Fallthrough.Rollout.Variations.len = ro.Variations.len) ∧
      (∀ (i : Nat) (t : targetJSONRep), fields.Targets.toList[i]? = some t →
        ∃ t1 : Target, ret.Targets.toList[i]? = some t1 ∧ t1.Values = t.Values) ∧
      (∀ (i : Nat) (r : flagRuleJSONRep V), fields.Rules.toList[i]? = some r →
        ∃ r1 : FlagRule V, ret.Rules.toList[i]? = some r1 ∧
          r1.Clauses.isNil = false ∧ r1.Clauses.len = r.Clauses.len ∧
          (∀ (j : Nat) (c : clauseJSONRep V), r.Clauses.toList[j]? = some c →
            ∃ c1 : Clause V, r1.Clauses.toList[j]? = some c1 ∧ c1.Values = c.Values) ∧
          (r.variationOrRolloutJSONRep.Rollout = none →
            r1.VariationOrRollout.Rollout.Variations = Slice.nil) ∧
          (∀ ro, r.variationOrRolloutJSONRep.Rollout = some ro →
            r1.VariationOrRollout.Rollout.Variations.isNil = false ∧
            r1.VariationOrRollout.Rollout.Variations.len = ro.Variations.len))) ∧
    (∀ fields : segmentJSONRep V, ∃ ret, buildSegment fields = some ret ∧
      ret.Included = fields.Included ∧ ret.Excluded = fields.Excluded ∧
      ret.Rules.len = fields.Rules.len ∧
      (ret.Rules = Slice.nil ↔ fields.Rules.len = 0) ∧
      (∀ (i : Nat) (r : segmentRuleJSONRep V), fields.Rules.toList[i]? = some r →
        ∃ r1 : SegmentRule V, ret.Rules.toList[i]? = some r1 ∧
          r1.Clauses.isNil = false ∧ r1.Clauses.len = r.Clauses.len ∧
          (∀ (j : Nat) (c : clauseJSONRep V), r.Clauses.toList[j]? = some c →
            ∃ c1 : Clause V, r1.Clauses.toList[j]? = some c1 ∧ c1.Values = c.Values))) := by
  have hro_none : ∀ p : variationOrRolloutJSONRep, p.Rollout = none →
      (resolveVariationOrRollout p).Rollout.Variations = Slice.nil := by
    intro p h
    simp [resolveVariationOrRollout, resolveRollout, h, Rollout.zero]
  have hro_some : ∀ (p : variationOrRolloutJSONRep) (ro : rolloutJSONRep), p.Rollout = some ro →
      (resolveVariationOrRollout p).Rollout.Variations.isNil = false ∧
      (resolveVariationOrRollout p).Rollout.Variations.len = ro.Variations.len := by
    intro p ro h
    simp [resolveVariationOrRollout, resolveRollout, h, Slice.isNil, Slice.len, Slice.toList]
  have hcl : ∀ (cs : Slice (clauseJSONRep V)) (j : Nat) (c : clauseJSONRep V),
      cs.toList[j]? = some c →
      ∃ c1 : Clause V, (Slice.mk (cs.toList.map copyClause)).toList[j]? = some c1 ∧
        c1.Values = c.Values := by
    intro cs j c h
    refine ⟨copyClause c, ?_, rfl⟩
    show (cs.toList.map copyClause)[j]? = some (copyClause c)
    simp [h]
  constructor
  · intro fields
    refine ⟨resolveFeatureFlag fields, buildFeatureFlag_eq fields,
      mapNonEmpty_len _ _, mapNonEmpty_eq_nil_iff _ _,
      mapNonEmpty_len _ _, mapNonEmpty_eq_nil_iff _ _,
      mapNonEmpty_len _ _, mapNonEmpty_eq_nil_iff _ _, rfl,
      hro_none fields.Fallthrough, hro_some fields.Fallthrough, ?_, ?_⟩
    · intro i t h
      exact ⟨copyTarget t, mapNonEmpty_getElem_some _ _ i t h, rfl⟩
    · intro i r h
      refine ⟨resolveFlagRule r, mapNonEmpty_getElem_some _ _ i r h, rfl, ?_, hcl r.Clauses,
        hro_none r.variationOrRolloutJSONRep, hro_some r.variationOrRolloutJSONRep⟩
      simp [resolveFlagRule, Slice.len, Slice.toList]
  · intro fields
    refine ⟨resolveSegment fields, buildSegment_eq fields, rfl, rfl,
      mapNonEmpty_len _ _, mapNonEmpty_eq_nil_iff _ _, ?_⟩
    intro i r h
    refine ⟨resolveSegmentRule r, mapNonEmpty_getElem_some _ _ i r h, rfl, ?_, hcl r.Clauses⟩
    simp [resolveSegmentRule, Slice.len, Slice.toList]

/-- C11, counterexample: with variation 1, the pair with the rollout absent decodes to a
rollout whose list is the nil slice, and the pair with a present rollout holding an empty
list and the default `bucketBy` decodes to a rollout whose list is a non-nil empty slice;
the two decoded values are not equal. -/
theorem rollout_absent_vs_empty_counterexample :
    decodeVariationOrRollout ⟨some 1, none⟩ = some ⟨1, ⟨Slice.nil, ""⟩⟩ ∧
    decodeVariationOrRollout ⟨some 1, some ⟨Slice.mk [], ""⟩⟩ = some ⟨1, ⟨Slice.mk [], ""⟩⟩ ∧
    decodeVariationOrRollout ⟨some 1, some ⟨Slice.nil, ""⟩⟩ = some ⟨1, ⟨Slice.mk [], ""⟩⟩ ∧
    decodeVariationOrRollout ⟨some 1, none⟩
      ≠ decodeVariationOrRollout ⟨some 1, some ⟨Slice.mk [], ""⟩⟩ := by
  refine ⟨?_, ?_, ?_, ?_⟩ <;> decide

/-- C11, amended: for every optional variation `v` and every present rollout `ro` with an
empty weighted-variation list and the default `bucketBy`, decoding the pair with the
rollout absent and the pair with rollout `ro` gives values with the same `Variation`, the
same `BucketBy`, and weighted-variation lists of length 0 with the same elements; the
absent rollout leaves the list nil and the present one makes it a non-nil empty slice. -/
theorem rollout_absent_vs_empty (v : Option Int) (ro : rolloutJSONRep)
    (hlen : ro.Variations.len = 0) (hbucket : ro.BucketBy = "") :
    ∃ a b, decodeVariationOrRollout ⟨v, none⟩ = some a ∧
      decodeVariationOrRollout ⟨v, some ro⟩ = some b ∧
      a.Variation = b.Variation ∧
      a.Rollout.BucketBy = b.Rollout.BucketBy ∧
      a.Rollout.Variations.len = 0 ∧ b.Rollout.Variations.len = 0 ∧
      a.Rollout.Variations.toList = b.Rollout.Variations.toList ∧
      a.Rollout.Variations = Slice.nil ∧ b.Rollout.Variations = Slice.mk [] := by
  have h0 : ro.Variations.toList = [] := List.length_eq_zero.mp hlen
  refine ⟨_, _, decodeVariationOrRollout_eq _, decodeVariationOrRollout_eq _, ?_⟩
  simp [resolveVariationOrRollout, resolveRollout, Rollout.zero, Slice.len, Slice.toList_nil,
    Slice.toList_mk, hbucket, h0]

/-- C11, amended, at variation 1 and the rollout `{"variations":[]}`. -/
theorem rollout_absent_vs_empty_witness :
    (⟨Slice.mk [], ""⟩ : rolloutJSONRep).Variations.len = 0 ∧
    ∃ a b, decodeVariationOrRollout ⟨some 1, none⟩ = some a ∧
      decodeVariationOrRollout ⟨some 1, some ⟨Slice.mk [], ""⟩⟩ = some b ∧
      a.Variation = b.Variation ∧
      a.Rollout.BucketBy = b.Rollout.BucketBy ∧
      a.Rollout.Variations.len = 0 ∧ b.Rollout.Variations.len = 0 ∧
      a.Rollout.Variations.toList = b.Rollout.Variations.toList ∧
      a.Rollout.Variations = Slice.nil ∧ b.Rollout.Variations = Slice.mk [] :=
  ⟨rfl, rollout_absent_vs_empty (some 1) ⟨Slice.mk [], ""⟩ rfl rfl⟩

/-- C12: with the hook a parameter `h`, on a successful parse with wire value `fields`
`unmarshalFeatureFlag` (and likewise `unmarshalSegment`) returns, with the nil error, `h`
applied once to the fully built entity: the entity handed to `h` is the decoded form of
`fields`, with every scalar field, `OffVariation`, `Variations`, the fallthrough and the
prerequisite, target and rule lists already assigned from the wire value. On a failed
parse it returns the zero value with the error, whatever `h` is. With a hook that appends
"!" to the salt, the spec's end-to-end flag document gives the decoded flag with salt "!"
(one application, where two would give "!!"), and the truncated document gives the zero
flag, which is not the hook's image of the zero flag; the same holds for segments. -/
theorem unmarshal_hook_once {V ε : Type} :
    (∀ (parse : List UInt8 → featureFlagJSONRep V × Option ε)
        (h : FeatureFlag V → FeatureFlag V) (data : List UInt8),
      (∀ fields, parse data = (fields, none) →
        ∃ built, buildFeatureFlag fields = some built ∧
          unmarshalFeatureFlag parse h data = some (h built, none) ∧
          built = resolveFeatureFlag fields ∧
          built.Key = fields.Key ∧ built.On = fields.On ∧
          built.Version = fields.Version ∧ built.Deleted = fields.Deleted ∧
          built.ClientSide = fields.ClientSide ∧ built.Salt = fields.Salt ∧
          built.TrackEvents = fields.TrackEvents ∧
          built.TrackEventsFallthrough = fields.TrackEventsFallthrough ∧
          built.DebugEventsUntilDate = fields.DebugEventsUntilDate ∧
          built.Variations = fields.Variations ∧
          built.OffVariation = fields.OffVariation.getD (-1) ∧
          built.Fallthrough.Variation = fields.Fallthrough.Variation.getD (-1) ∧
          built.Fallthrough.Rollout = resolveRollout fields.Fallthrough.Rollout ∧
          built.Prerequisites.toList
            = fields.Prerequisites.toList.map (fun p => ⟨p.Key, p.Variation⟩) ∧
          built.Targets.toList
            = fields.Targets.toList.map (fun t => ⟨t.Values, t.Variation⟩) ∧
          built.Rules.toList = fields.Rules.toList.map resolveFlagRule) ∧
      ((parse data).2 = none →
        ∃ built, buildFeatureFlag (parse data).1 = some built ∧
          built = resolveFeatureFlag (parse data).1 ∧
          unmarshalFeatureFlag parse h data = some (h built, none)) ∧
      (∀ e, (parse data).2 = some e →
        unmarshalFeatureFlag parse h data = some (FeatureFlag.zero, some e))) ∧
    (∀ (parse : List UInt8 → segmentJSONRep V × Option ε)
        (h : Segment V → Segment V) (data : List UInt8),
      (∀ fields, parse data = (fields, none) →
        ∃ built, buildSegment fields = some built ∧
          unmarshalSegment parse h data = some (h built, none) ∧
          built = resolveSegment fields ∧
          built.Key = fields.Key ∧ built.Version = fields.Version ∧
          built.Deleted = fields.Deleted ∧ built.Included = fields.Included ∧
          built.Excluded = fields.Excluded ∧ built.Salt = fields.Salt ∧
          built.Rules.toList = fields.Rules.toList.map resolveSegmentRule) ∧
      ((parse data).2 = none →
        ∃ built, buildSegment (parse data).1 = some built ∧
          built = resolveSegment (parse data).1 ∧
          unmarshalSegment parse h data = some (h built, none)) ∧
      (∀ e, (parse data).2 = some e →
        unmarshalSegment parse h data = some (Segment.zero, some e))) ∧
    unmarshalFeatureFlag flagUnmarshalFlag1 markFlag docFlag1
      = some (⟨"flag1", true, Slice.nil, Slice.nil, Slice.nil, ⟨0, ⟨Slice.nil, ""⟩⟩, -1,
          Slice.mk [true, false], false, "!", false, false, 0, 1, false⟩, none) ∧
    (∃ built, buildFeatureFlag wireOffVariation3 = some built ∧
      unmarshalFeatureFlag flagUnmarshal markFlag docOffVariation3
        = some (markFlag built, none) ∧
      built.OffVariation = 3 ∧
      (markFlag built).Salt = "!" ∧ (markFlag (markFlag built)).Salt = "!!") ∧
    unmarshalFeatureFlag flagUnmarshalPartial markFlag docTruncated
      = some (FeatureFlag.zero, some "unexpected end of JSON input") ∧
    markFlag FeatureFlag.zero ≠ FeatureFlag.zero ∧
    unmarshalSegment segmentUnmarshalEmail markSegment docEmailRule
      = some (⟨"", Slice.nil, Slice.nil, "!", Slice.mk [⟨"r2", Slice.mk [], -1, "email"⟩],
          0, false⟩, none) ∧
    (∃ built, buildSegment wireBareRule = some built ∧
      unmarshalSegment segmentUnmarshal markSegment docBareRule
        = some (markSegment built, none) ∧
      built.Rules = Slice.mk [⟨"r1", Slice.mk [], -1, ""⟩] ∧
      (markSegment built).Salt = "!" ∧ (markSegment (markSegment built)).Salt = "!!") ∧
    unmarshalSegment segmentUnmarshalPartial markSegment docTruncated
      = some (Segment.zero, some "unexpected end of JSON input") ∧
    markSegment Segment.zero ≠ Segment.zero := by
  refine ⟨?_, ?_, ?_, ⟨resolveFeatureFlag wireOffVariation3, ?_, ?_, ?_, ?_, ?_⟩, ?_, ?_, ?_,
    ⟨resolveSegment wireBareRule, ?_, ?_, ?_, ?_, ?_⟩, ?_, ?_⟩
  · intro parse h data
    refine ⟨?_, ?_, ?_⟩
    · intro fields hp
      exact ⟨resolveFeatureFlag fields, buildFeatureFlag_eq fields,
        unmarshalFeatureFlag_ok parse h data fields hp, rfl, rfl, rfl, rfl, rfl, rfl, rfl,
        rfl, rfl, rfl, rfl, rfl, rfl, rfl, mapNonEmpty_toList _ _, mapNonEmpty_toList _ _,
        mapNonEmpty_toList _ _⟩
    · intro hn
      exact ⟨_, buildFeatureFlag_eq _, rfl,
        unmarshalFeatureFlag_ok parse h data (parse data).1 (Prod.ext rfl hn)⟩
    · intro e he
      unfold unmarshalFeatureFlag
      rcases hp : parse data with ⟨fields, err⟩
      rw [hp] at he
      simp only at he
      subst he
      rfl
  · intro parse h data
    refine ⟨?_, ?_, ?_⟩
    · intro fields hp
      exact ⟨resolveSegment fields, buildSegment_eq fields,
        unmarshalSegment_ok parse h data fields hp, rfl, rfl, rfl, rfl, rfl, rfl, rfl,
        mapNonEmpty_toList _ _⟩
    · intro hn
      exact ⟨_, buildSegment_eq _, rfl,
        unmarshalSegment_ok parse h data (parse data).1 (Prod.ext rfl hn)⟩
    · intro e he
      unfold unmarshalSegment
      rcases hp : parse data with ⟨fields, err⟩
      rw [hp] at he
      simp only at he
      subst he
      rfl
  all_goals decide

/-- C13: the flag built from a parsed wire value has `Key`, `On`, `Version`, `Deleted`,
`ClientSide`, `Salt`, `TrackEvents`, `TrackEventsFallthrough`, `DebugEventsUntilDate` and
`Variations` equal to the wire fields of the same name, and its `Fallthrough` is what
`decodeVariationOrRollout` returns for the wire fallthrough. The document
`{"key":"flag1","on":true,"offVariation":null,"fallthrough":{"variation":0},
"variations":[true,false],"version":1}` gives key "flag1", on true, off-variation -1,
fallthrough variation 0, variations `[true, false]`, version 1, and prerequisite, target
and rule lists of length 0. -/
theorem buildFeatureFlag_scalars {V : Type} (fields : featureFlagJSONRep V) :
    (∃ ret, buildFeatureFlag fields = some ret ∧
      ret.Key = fields.Key ∧ ret.On = fields.On ∧ ret.Version = fields.Version ∧
      ret.Deleted = fields.Deleted ∧ ret.ClientSide = fields.ClientSide ∧
      ret.Salt = fields.Salt ∧ ret.TrackEvents = fields.TrackEvents ∧
      ret.TrackEventsFallthrough = fields.TrackEventsFallthrough ∧
      ret.DebugEventsUntilDate = fields.DebugEventsUntilDate ∧
      ret.Variations = fields.Variations ∧
      decodeVariationOrRollout fields.Fallthrough = some ret.Fallthrough) ∧
    (∃ ret, flagUnmarshalFlag1 docFlag1 = (wireFlag1, none) ∧
      buildFeatureFlag wireFlag1 = some ret ∧
      unmarshalFeatureFlag flagUnmarshalFlag1 id docFlag1 = some (ret, none) ∧
      ret.Key = "flag1" ∧ ret.On = true ∧ ret.OffVariation = -1 ∧
      ret.Fallthrough.Variation = 0 ∧ ret.Variations = Slice.mk [true, false] ∧
      ret.Version = 1 ∧
      ret.Prerequisites.len = 0 ∧ ret.Targets.len = 0 ∧ ret.Rules.len = 0) := by
  constructor
  · exact ⟨resolveFeatureFlag fields, buildFeatureFlag_eq fields, rfl, rfl, rfl, rfl, rfl,
      rfl, rfl, rfl, rfl, rfl, decodeVariationOrRollout_eq fields.Fallthrough⟩
  · refine ⟨resolveFeatureFlag wireFlag1, ?_, ?_, ?_, ?_, ?_, ?_, ?_, ?_, ?_, ?_, ?_, ?_⟩ <;>
      decide

/-- C14: the segment built from a parsed wire value has `Key`, `Version`, `Deleted`,
`Included`, `Excluded` and `Salt` equal to the wire fields of the same name; its `Rules`
have the length and order of the wire rules, the `i`-th rule having the wire rule's `ID`,
the `Clauses` that `decodeClauses` returns for the wire clauses, `Weight` -1 for an absent
weight and the wire weight otherwise, `BucketBy` equal to the wire attribute when present
and the zero-value attribute when absent. The document
`{"rules":[{"id":"r2","bucketBy":"email"}]}` gives a rule with `BucketBy` "email". -/
theorem buildSegment_fields {V : Type} (fields : segmentJSONRep V) :
    (∃ seg, buildSegment fields = some seg ∧
      seg.Key = fields.Key ∧ seg.Version = fields.Version ∧ seg.Deleted = fields.Deleted ∧
      seg.Included = fields.Included ∧ seg.Excluded = fields.Excluded ∧
      seg.Salt = fields.Salt ∧
      seg.Rules.len = fields.Rules.len ∧
      (∀ (i : Nat) (r : segmentRuleJSONRep V), fields.Rules.toList[i]? = some r →
        ∃ sr : SegmentRule V, seg.Rules.toList[i]? = some sr ∧
          sr.ID = r.ID ∧
          decodeClauses r.Clauses = some sr.Clauses ∧
          (r.Weight = none → sr.Weight = -1) ∧
          (∀ w, r.Weight = some w → sr.Weight = w) ∧
          (∀ b, r.BucketBy = some b → sr.BucketBy = b) ∧
          (r.BucketBy = none → sr.BucketBy = ""))) ∧
    (∃ seg sr, segmentUnmarshalEmail docEmailRule = (wireEmailRule, none) ∧
      unmarshalSegment segmentUnmarshalEmail id docEmailRule = some (seg, none) ∧
      seg.Rules.toList[0]? = some sr ∧ sr.ID = "r2" ∧ sr.BucketBy = "email" ∧
      sr.Weight = -1) := by
  constructor
  · refine ⟨resolveSegment fields, buildSegment_eq fields, rfl, rfl, rfl, rfl, rfl, rfl,
      mapNonEmpty_len _ _, ?_⟩
    intro i r h
    refine ⟨resolveSegmentRule r, mapNonEmpty_getElem_some _ _ i r h, rfl,
      decodeClauses_eq r.Clauses, ?_, ?_, ?_, ?_⟩
    · intro hw
      simp [resolveSegmentRule, hw]
    · intro w hw
      simp [resolveSegmentRule, hw]
    · intro b hb
      simp [resolveSegmentRule, hb]
    · intro hb
      simp [resolveSegmentRule, hb]
  · refine ⟨resolveSegment wireEmailRule, resolveSegmentRule ⟨"r2", Slice.nil, none,
      some "email"⟩, ?_, ?_, ?_, ?_, ?_, ?_⟩ <;> decide

/-- C15: for an optional integer whose value, when present, is a legitimate variation
index (at least 0), `maybeVariation` returns `NoVariation` if and only if the value is
absent, and on such inputs `maybeVariation` is injective. -/
theorem maybeVariation_no_collision (v : Option Int) (hv : ∀ n, v = some n → 0 ≤ n) :
    (maybeVariation v = some NoVariation ↔ v = none) ∧
    (∀ w : Option Int, (∀ n, w = some n → 0 ≤ n) →
      maybeVariation v = maybeVariation w → v = w) := by
  have key : ∀ u : Option Int, (∀ n, u = some n → 0 ≤ n) →
      (u.getD NoVariation = NoVariation ↔ u = none) := by
    intro u hu
    cases u with
    | none => simp
    | some n =>
      have h0 := hu n rfl
      simp [NoVariation]
      omega
  constructor
  · rw [maybeVariation_eq, Option.some_inj]
    exact key v hv
  · intro w hw h
    rw [maybeVariation_eq, maybeVariation_eq, Option.some_inj] at h
    cases v with
    | none =>
      have hw0 := (key w hw).mp (by simpa using h.symm)
      exact hw0.symm
    | some n =>
      cases w with
      | none =>
        have hv0 := (key (some n) hv).mp (by simpa using h)
        exact hv0
      | some m => simpa using h

/-- C15 at the present index 0: it is not resolved to `NoVariation`. -/
theorem maybeVariation_no_collision_witness :
    (∀ n, (some 0 : Option Int) = some n → 0 ≤ n) ∧
    maybeVariation (some 0) = some 0 ∧
    ((maybeVariation (some 0) = some NoVariation ↔ (some 0 : Option Int) = none) ∧
      (∀ w : Option Int, (∀ n, w = some n → 0 ≤ n) →
        maybeVariation (some 0) = maybeVariation w → some 0 = w)) :=
  ⟨fun n h => by cases h; exact le_refl 0, rfl,
    maybeVariation_no_collision (some 0) (fun n h => by cases h; exact le_refl 0)⟩

/-- C16: the flag built from a parsed wire value has prerequisite, target and rule lists
of the length and order of the wire lists: the `i`-th prerequisite has the wire
prerequisite's key and variation, the `i`-th target the wire target's values and
variation, and the `i`-th rule the wire rule's `ID` and `TrackEvents`, the `Clauses` that
`decodeClauses` returns for the wire clauses and the `VariationOrRollout` that
`decodeVariationOrRollout` returns for the rule's embedded pair, the function that also
decodes the fallthrough. A wire flag with two prerequisites, one target and one rule is
evaluated. -/
theorem buildFeatureFlag_lists {V : Type} (fields : featureFlagJSONRep V) :
    (∃ ret, buildFeatureFlag fields = some ret ∧
      ret.Prerequisites.len = fields.Prerequisites.len ∧
      ret.Targets.len = fields.Targets.len ∧
      ret.Rules.len = fields.Rules.len ∧
      (∀ (i : Nat) (p : prerequisiteJSONRep), fields.Prerequisites.toList[i]? = some p →
        ∃ q : Prerequisite, ret.Prerequisites.toList[i]? = some q ∧
          q.Key = p.Key ∧ q.Variation = p.Variation) ∧
      (∀ (i : Nat) (t : targetJSONRep), fields.Targets.toList[i]? = some t →
        ∃ u : Target, ret.Targets.toList[i]? = some u ∧
          u.Values = t.Values ∧ u.Variation = t.Variation) ∧
      (∀ (i : Nat) (r : flagRuleJSONRep V), fields.Rules.toList[i]? = some r →
        ∃ fr : FlagRule V, ret.Rules.toList[i]? = some fr ∧
          fr.ID = r.ID ∧ fr.TrackEvents = r.TrackEvents ∧
          decodeClauses r.Clauses = some fr.Clauses ∧
          decodeVariationOrRollout r.variationOrRolloutJSONRep
            = some fr.VariationOrRollout) ∧
      decodeVariationOrRollout fields.Fallthrough = some ret.Fallthrough) ∧
    (∃ ret, buildFeatureFlag wireFlagLists = some ret ∧
      ret.Prerequisites = Slice.mk [⟨"a", 1⟩, ⟨"b", 0⟩] ∧
      ret.Targets = Slice.mk [⟨Slice.mk ["u1", "u2"], 1⟩] ∧
      ret.Rules = Slice.mk
        [⟨⟨0, ⟨Slice.nil, ""⟩⟩, "r1", Slice.mk [⟨"name", "in", Slice.mk [true], false⟩],
          true⟩]) := by
  constructor
  · refine ⟨resolveFeatureFlag fields, buildFeatureFlag_eq fields, mapNonEmpty_len _ _,
      mapNonEmpty_len _ _, mapNonEmpty_len _ _, ?_, ?_, ?_,
      decodeVariationOrRollout_eq fields.Fallthrough⟩
    · intro i p h
      exact ⟨copyPrerequisite p, mapNonEmpty_getElem_some _ _ i p h, rfl, rfl⟩
    · intro i t h
      exact ⟨copyTarget t, mapNonEmpty_getElem_some _ _ i t h, rfl, rfl⟩
    · intro i r h
      exact ⟨resolveFlagRule r, mapNonEmpty_getElem_some _ _ i r h, rfl, rfl,
        decodeClauses_eq r.Clauses, decodeVariationOrRollout_eq r.variationOrRolloutJSONRep⟩
  · refine ⟨resolveFeatureFlag wireFlagLists, ?_, ?_, ?_, ?_⟩ <;> decide

/-- C17: `maybeVariation` returns the same result for the present value -1 and for an
absent value; a segment rule with wire weight -1 and the same rule with the weight absent
build the same segment, its rule having `Weight` -1; and for every wire flag, giving it
`offVariation` -1 and omitting `offVariation` are two distinct wire values from which
`buildFeatureFlag` builds the same flag, with `OffVariation` -1. -/
theorem sentinel_collision {V : Type} :
    maybeVariation (some (-1)) = maybeVariation none ∧
    (∀ (fields : segmentJSONRep V) (r : segmentRuleJSONRep V),
      ∃ seg sr,
        buildSegment { fields with Rules := Slice.mk [{ r with Weight := some (-1) }] }
          = some seg ∧
        buildSegment { fields with Rules := Slice.mk [{ r with Weight := none }] }
          = some seg ∧
        seg.Rules.toList[0]? = some sr ∧ sr.Weight = -1) ∧
    (∀ fields : featureFlagJSONRep V,
      ({ fields with OffVariation := some (-1) } : featureFlagJSONRep V)
        ≠ { fields with OffVariation := none } ∧
      ∃ ret, buildFeatureFlag { fields with OffVariation := some (-1) } = some ret ∧
        buildFeatureFlag { fields with OffVariation := none } = some ret ∧
        ret.OffVariation = -1) := by
  refine ⟨rfl, ?_, ?_⟩
  · intro fields r
    refine ⟨_, resolveSegmentRule { r with Weight := none }, buildSegment_eq _, ?_, ?_, ?_⟩
    · rw [buildSegment_eq]
      rfl
    · rfl
    · rfl
  · intro fields
    constructor
    · intro h
      have h1 := congrArg featureFlagJSONRep.OffVariation h
      simp at h1
    · refine ⟨_, buildFeatureFlag_eq _, ?_, ?_⟩
      · rw [buildFeatureFlag_eq]
        rfl
      · rfl

end ldmodel
